import Mathlib

/-!
Verification of the ReponoDB versioning core against its C++ sources.

The C++ `Value` is `std::variant<std::monostate, int64_t, double, std::string, bool>`.
We model `int64_t` as `Int` (the program performs no arithmetic that could
overflow: values are only compared and printed), `double` as `ℚ` (the program
only compares doubles and prints them with two decimals; no float arithmetic
is performed), and `std::string` as `String` (byte-lexicographic comparison of
`std::string` agrees with the lexicographic order of `String` on these models).
`unordered_map` contents are modelled as association lists; every use in the
sources either looks a single key up or collects all keys and sorts them, so
the unspecified iteration order of the real container never reaches a result.
-/

namespace Repono

/-- The five alternatives of the C++ `Value` variant, in declaration order
(`index()` 0..4: monostate, int64_t, double, string, bool). -/
inductive Value where
  | null : Value
  | int (i : Int) : Value
  | float (q : ℚ) : Value
  | text (s : String) : Value
  | bool (b : Bool) : Value
deriving DecidableEq
/-- A row is a vector of values (`using Row = std::vector<Value>`). -/
abbrev Row := List Value
/-- Model of `std::holds_alternative<std::monostate>(v)`. -/
def holds_monostate : Value → Bool
  | .null => true
  | _ => false
/-- Model of `std::holds_alternative<int64_t>(v)`. -/
def holds_int64 : Value → Bool
  | .int _ => true
  | _ => false
/-- Model of `std::holds_alternative<double>(v)`. -/
def holds_double : Value → Bool
  | .float _ => true
  | _ => false
/-- Model of `std::holds_alternative<std::string>(v)`. -/
def holds_string : Value → Bool
  | .text _ => true
  | _ => false
/-- Model of `std::holds_alternative<bool>(v)`. -/
def holds_bool : Value → Bool
  | .bool _ => true
  | _ => false
/-- Model of `v.index()` for the variant. -/
def variantIndex : Value → Nat
  | .null => 0
  | .int _ => 1
  | .float _ => 2
  | .text _ => 3
  | .bool _ => 4

/-- Model of `std::get<int64_t>(v)`; every call in the sources is guarded by
`holds_alternative<int64_t>`, so the default is never observed. -/
def get_int : Value → Int
  | .int i => i
  | _ => 0
/-- Model of `std::get<double>(v)` (guarded at every call site). -/
def get_float : Value → ℚ
  | .float q => q
  | _ => 0
/-- Model of `std::get<std::string>(v)` (guarded at every call site). -/
def get_text : Value → String
  | .text s => s
  | _ => ""
/-- Model of `std::get<bool>(v)` (guarded at every call site). -/
def get_bool : Value → Bool
  | .bool b => b
  | _ => false
/-- Two-digit zero-padded rendering of a natural number below 100. -/
def pad2 (n : Nat) : String :=
  if n < 10 then ("0") ++ toString n else toString n

/-- Model of `oss << std::fixed << std::setprecision(2) << d`: the value
rounded to the nearest hundredth and printed with exactly two decimals. -/
def fixed2 (q : ℚ) : String :=
  let n : Int := round (q * (100 : ℚ))
  let sgn := if n < 0 then ("-") else ("")
  let m := n.natAbs
  sgn ++ toString (m / 100) ++ (".") ++ pad2 (m % 100)

/-- Model of `value_to_string` (part_002 lines 38-69): the if-chain over
`holds_alternative` with the final unreachable fallback returning `???`. -/
def value_to_string (v : Value) : String :=
  if holds_monostate v then ("NULL")
  else if holds_int64 v then toString (get_int v)
  else if holds_double v then fixed2 (get_float v)
  else if holds_string v then get_text v
  else if holds_bool v then (if get_bool v then ("true") else ("false"))
  else ("???")
/-- Model of `values_equal` (part_002 lines 82-94). -/
def values_equal (a b : Value) : Bool :=
  if holds_monostate a || holds_monostate b then false
  else if variantIndex a != variantIndex b then false
  else a == b
/-- Model of `value_less_than` (part_002 lines 110-151). -/
def value_less_than (a b : Value) : Bool :=
  if holds_monostate a then false
  else if holds_monostate b then true
  else if holds_int64 a && holds_int64 b then decide (get_int a < get_int b)
  else if holds_double a && holds_double b then decide (get_float a < get_float b)
  else if (holds_int64 a || holds_double a) && (holds_int64 b || holds_double b) then
    let da : ℚ := if holds_int64 a then ((get_int a : ℚ)) else get_float a
    let db : ℚ := if holds_int64 b then ((get_int b : ℚ)) else get_float b
    decide (da < db)
  else if holds_string a && holds_string b then decide (get_text a < get_text b)
  else if holds_bool a && holds_bool b then !(get_bool a) && get_bool b
  else decide (variantIndex a < variantIndex b)
/-- Model of `is_null` (part_002 lines 158-161). -/
def is_null (v : Value) : Bool :=
  holds_monostate v
/-- The `DataType` enum (part_002 lines 163-170). -/
inductive DataType where
  | INTEGER : DataType
  | FLOAT : DataType
  | VARCHAR : DataType
  | BOOLEAN : DataType
  | TIMESTAMP : DataType
deriving DecidableEq
/-- Model of `datatype_to_string` (part_002 lines 178-195). -/
def datatype_to_string : DataType → String
  | .INTEGER => ("INTEGER")
  | .FLOAT => ("FLOAT")
  | .VARCHAR => ("VARCHAR")
  | .BOOLEAN => ("BOOLEAN")
  | .TIMESTAMP => ("TIMESTAMP")
/-- A single-quote character as a string, used inside the error messages. -/
def sq : String := String.singleton (Char.ofNat 39)
/-- The `ColumnDef` struct (part_002 lines 205-214). -/
structure ColumnDef where
  name : String
  type : DataType
  is_primary_key : Bool
  is_nullable : Bool
deriving DecidableEq
/-- Model of `ColumnDef::validate` (part_002 lines 222-260). -/
def ColumnDef.validate (col : ColumnDef) (v : Value) : String :=
  if is_null v then
    if !col.is_nullable then
      ("Column ") ++ sq ++ col.name ++ sq ++ (" cannot be NULL")
    else ("")
  else
    let type_ok : Bool :=
      match col.type with
      | .INTEGER => holds_int64 v
      | .FLOAT => holds_double v || holds_int64 v
      | .VARCHAR => holds_string v
      | .BOOLEAN => holds_bool v
      | .TIMESTAMP => holds_int64 v
    if !type_ok then
      ("Column ") ++ sq ++ col.name ++ sq ++ (" expects ") ++
        datatype_to_string col.type ++ (", got wrong type")
    else ("")

/-- The `Schema` class state (part_002 lines 376-379): the ordered column list
and the name-to-index `unordered_map`, modelled as an association list
with at most one entry per key. -/
structure Schema where
  columns : List ColumnDef
  column_indices : List (String × Nat)
deriving DecidableEq
/-- A default-constructed `Schema`. -/
def Schema.empty : Schema := ⟨[], []⟩

/-- Model of assignment through `unordered_map::operator[]`: it assigns the
existing entry for the key, or inserts a fresh one. -/
def map_assign (m : List (String × Nat)) (k : String) (v : Nat) :
    List (String × Nat) :=
  if m.any (fun p => p.1 == k) then
    m.map (fun p => if p.1 == k then (k, v) else p)
  else m ++ [(k, v)]

/-- Model of `Schema::add_column` (part_002 lines 291-295): it assigns the
name-to-index entry and appends, with no duplicate check of any kind. -/
def Schema.add_column (s : Schema) (column : ColumnDef) : Schema :=
  { columns := s.columns ++ [column],
    column_indices := map_assign s.column_indices column.name s.columns.length }
/-- Model of `Schema::num_columns`. -/
def Schema.num_columns (s : Schema) : Nat := s.columns.length
/-- Model of `Schema::get_column_index` (part_002 lines 316-324). -/
def Schema.get_column_index (s : Schema) (name : String) : Option Nat :=
  s.column_indices.lookup name

/-- Model of `Schema::get_column` (part_002 lines 332-340); the pointer-or-
null result becomes an `Option`. -/
def Schema.get_column (s : Schema) (name : String) : Option ColumnDef :=
  (s.get_column_index name).bind (fun idx => s.columns.get? idx)
/-- Model of `Schema::has_column` (part_002 lines 348-351). -/
def Schema.has_column (s : Schema) (name : String) : Bool :=
  (s.column_indices.lookup name).isSome

/-- The cell-by-cell loop of `Schema::validate_row`: it returns the first
nonempty error of `columns_[i].validate(row[i])`. -/
def firstError : List ColumnDef → List Value → String
  | c :: cs, v :: vs =>
    let error := c.validate v
    if error ≠ ("") then error else firstError cs vs
  | _, _ => ("")
/-- Model of `Schema::validate_row` (part_002 lines 358-374). -/
def Schema.validate_row (s : Schema) (row : Row) : String :=
  if row.length ≠ s.columns.length then
    ("Expected ") ++ toString s.columns.length ++ (" columns, got ") ++
      toString row.length
  else firstError s.columns row

/-- The `Commit` struct (part_002 lines 392-408); the two `unordered_map`
members become association lists. -/
structure Commit where
  hash : String
  parent_hash : String
  message : String
  timestamp : Int
  table_data : List (String × List Row)
  table_schemas : List (String × Schema)
deriving DecidableEq
/-- Model of `Commit::is_root`. -/
def Commit.is_root (c : Commit) : Bool := c.parent_hash == ("")

/-- The row serialization loop of `compute_commit_hash`: cells joined by
commas (`if (i > 0) oss << ","`). -/
def render_row (row : Row) : String :=
  String.intercalate (",") (List.map value_to_string row)

/-- The byte sequence that `compute_commit_hash` (part_002 lines 487-521)
streams into its `ostringstream` before digesting: the parent, message and
timestamp lines, then for each table name (collected from `table_data` and
sorted ascending, as `std::sort` does) a table line followed by one row
line per stored row. `table_data.at(name)` cannot fail because the names
come from the same map; the `getD` default of the model is never observed. -/
def canonicalize (c : Commit) : String :=
  let header := ("parent:") ++ c.parent_hash ++ ("\n") ++ ("message:") ++
    c.message ++ ("\n") ++ ("timestamp:") ++ toString c.timestamp ++ ("\n")
  let table_names := List.insertionSort (fun a b => a ≤ b) (c.table_data.map Prod.fst)
  table_names.foldl (fun acc name =>
    ((c.table_data.lookup name).getD []).foldl
      (fun acc2 row => acc2 ++ ("row:") ++ render_row row ++ ("\n"))
      (acc ++ ("table:") ++ name ++ ("\n"))) header

/-- Model of `compute_commit_hash` (part_002 lines 487-521); the SHA-256
`compute_hash` primitive is an external collaborator, taken as a
parameter. -/
def compute_commit_hash (digest : String → String) (c : Commit) : String :=
  digest (canonicalize c)
/-- Model of `validate_commit` (part_002 lines 523-527). -/
def validate_commit (digest : String → String) (c : Commit) : Bool :=
  compute_commit_hash digest c == c.hash

/-- Modelled from the spec: `create_commit` (spec 4.3) is described in the
specification but absent from the source files (the `main` drivers inline
it); it builds the Commit with all fields populated and computes and
assigns the hash last. -/
def create_commit (digest : String → String) (parent_hash message : String)
    (timestamp : Int) (table_data : List (String × List Row))
    (table_schemas : List (String × Schema)) : Commit :=
  let base : Commit :=
    ⟨(""), parent_hash, message, timestamp, table_data, table_schemas⟩
  { base with hash := compute_commit_hash digest base }
/-- The `RowDiff::Type` enum (part_002 lines 435-440). -/
inductive RowDiffType where
  | ADDED : RowDiffType
  | DELETED : RowDiffType
  | MODIFIED : RowDiffType
deriving DecidableEq
/-- The `RowDiff` struct (part_002 lines 433-446). -/
structure RowDiff where
  type : RowDiffType
  old_row : Row
  new_row : Row
deriving DecidableEq
/-- The `TableDiff` struct (part_002 lines 448-453). -/
structure TableDiff where
  table_name : String
  row_diffs : List RowDiff
  schema_changed : Bool
deriving DecidableEq
/-- The `CommitDiff` struct (part_002 lines 455-462). -/
structure CommitDiff where
  from_hash : String
  to_hash : String
  table_diffs : List TableDiff
  tables_added : List String
  tables_dropped : List String
deriving DecidableEq

/-- Modelled from the spec: Schema equality for diffing (spec 4.2), absent
from the source files: same column count and, for each position, identical
name, type, nullability and primary-key flag, in order. -/
def schemas_equal (s1 s2 : Schema) : Bool :=
  s1.columns.length == s2.columns.length &&
    (s1.columns.zip s2.columns).all (fun p =>
      p.1.name == p.2.name && p.1.type == p.2.type &&
      p.1.is_nullable == p.2.is_nullable &&
      p.1.is_primary_key == p.2.is_primary_key)

/-- Modelled from the spec: the declared primary-key column used for row
matching (spec 4.5) is the first column flagged `is_primary_key`, if any. -/
def pk_index (s : Schema) : Option Nat :=
  s.columns.findIdx? (fun col => col.is_primary_key)

/-- The cell of a row at a column index (out-of-range reads as Null; the spec
leaves short rows unspecified, and a Null key matches nothing). -/
def cell (r : Row) (k : Nat) : Value :=
  r.getD k Value.null

/-- Modelled from the spec: positional cell comparison of a matched row pair
(spec 4.5); any differing cell under `values_equal` (including two Nulls)
marks the pair MODIFIED. -/
def rows_match (fr tr : Row) : Bool :=
  fr.length == tr.length && ((fr.zip tr).all fun p => values_equal p.1 p.2)

/-- Modelled from the spec: primary-key row matching (spec 4.5). DELETED and
MODIFIED entries are emitted in from-scan order, ADDED entries are
appended afterwards in to-row order. -/
def row_diffs_pk (k : Nat) (fromRows toRows : List Row) : List RowDiff :=
  (fromRows.filterMap fun fr =>
    match toRows.find? (fun tr => values_equal (cell fr k) (cell tr k)) with
    | some tr =>
      if rows_match fr tr then none else some ⟨.MODIFIED, fr, tr⟩
    | none => some ⟨.DELETED, fr, []⟩) ++
  (toRows.filterMap fun tr =>
    if fromRows.any (fun fr => values_equal (cell fr k) (cell tr k)) then none
    else some ⟨.ADDED, [], tr⟩)

/-- Modelled from the spec: the rows of `src` in excess of their multiset
count in `other` (spec 4.5 fallback: a row with k occurrences in one side
and j in the other contributes max(0, k-j) instances), emitted in scan
order; `seen` is the already-scanned prefix. -/
def extra_rows (other : List Row) : List Row → List Row → List Row
  | _, [] => []
  | seen, r :: rest =>
    (if other.count r < seen.count r + 1 then [r] else []) ++
      extra_rows other (seen ++ [r]) rest

/-- Modelled from the spec: full-row multiset comparison used when no primary-
key column is declared (spec 4.5). -/
def row_diffs_multiset (fromRows toRows : List Row) : List RowDiff :=
  (extra_rows toRows [] fromRows).map (fun r => ⟨.DELETED, r, []⟩) ++
    (extra_rows fromRows [] toRows).map (fun r => ⟨.ADDED, [], r⟩)

/-- Modelled from the spec: the TableDiff of one table present in both commits
(spec 4.5); the primary key is taken from the `from` schema. -/
def table_diff (fromC toC : Commit) (name : String) : TableDiff :=
  let fromRows := (fromC.table_data.lookup name).getD []
  let toRows := (toC.table_data.lookup name).getD []
  let fromSchema := (fromC.table_schemas.lookup name).getD Schema.empty
  let toSchema := (toC.table_schemas.lookup name).getD Schema.empty
  let rds :=
    match pk_index fromSchema with
    | some k => row_diffs_pk k fromRows toRows
    | none => row_diffs_multiset fromRows toRows
  ⟨name, rds, !(schemas_equal fromSchema toSchema)⟩

/-- Modelled from the spec: `diff(from, to)` (spec 4.5). Added tables are
those of `to` absent from `from`, dropped ones those of `from` absent from
`to`; tables present in both yield a TableDiff each, in from-scan order. -/
def diff (fromC toC : Commit) : CommitDiff :=
  let fromNames := fromC.table_data.map Prod.fst
  let toNames := toC.table_data.map Prod.fst
  let added := toNames.filter (fun n => !(fromNames.contains n))
  let dropped := fromNames.filter (fun n => !(toNames.contains n))
  let common := fromNames.filter (fun n => toNames.contains n)
  ⟨fromC.hash, toC.hash, common.map (table_diff fromC toC), added, dropped⟩

/-- One `row:` line of the canonical serialization, following the words of the
spec (spec 4.4): `row:` then the cells rendered by display, comma
separated, newline terminated. -/
def row_line (row : Row) : String :=
  ("row:") ++ String.intercalate (",") (List.map value_to_string row) ++ ("\n")
/-- Concatenation of a list of strings, in order. -/
def str_concat : List String → String
  | [] => ("")
  | x :: xs => x ++ str_concat xs

/-- One table block of the canonical serialization, following the words of the
spec: a `table:` line, then one row line per stored row in order. -/
def table_block (td : List (String × List Row)) (name : String) : String :=
  ("table:") ++ name ++ ("\n") ++
    str_concat (((td.lookup name).getD []).map row_line)

/-- The canonical serialization following the words of the spec (spec 4.4): a
`parent:` line, a `message:` line, a `timestamp:` line, then the block of
every table name in ascending lexicographic order. Written independently
of `canonicalize` to state C2 as a refinement. -/
def canonicalize_spec (c : Commit) : String :=
  ("parent:") ++ c.parent_hash ++ ("\n") ++ ("message:") ++ c.message ++
    ("\n") ++ ("timestamp:") ++ toString c.timestamp ++ ("\n") ++
    str_concat ((List.insertionSort (fun a b => a ≤ b)
      (c.table_data.map Prod.fst)).map (table_block c.table_data))
/-- The first column added in the C1 scenario. -/
def c1_col1 : ColumnDef := ⟨("id"), DataType.INTEGER, true, false⟩
/-- A second column with the same name as `c1_col1`. -/
def c1_col2 : ColumnDef := ⟨("id"), DataType.VARCHAR, false, true⟩
/-- The schema holding `c1_col1` alone. -/
def c1_s0 : Schema := Schema.add_column Schema.empty c1_col1
/-- A one-column schema used by the C3 witness. -/
def c3_sch : Schema := Schema.add_column Schema.empty c1_col1
/-- C3 witness commit with a schema for table `t`. -/
def c3_c1 : Commit :=
  ⟨("h"), (""), ("m"), 0, [(("t"), [[Value.int 1]])], [(("t"), c3_sch)]⟩
/-- C3 witness commit with no schema at all. -/
def c3_c2 : Commit :=
  ⟨("h"), (""), ("m"), 0, [(("t"), [[Value.int 1]])], []⟩
/-- The header part of the canonical serialization, for proof bookkeeping. -/
def header_str (c : Commit) : String :=
  ("parent:") ++ c.parent_hash ++ ("\n") ++ ("message:") ++ c.message ++
    ("\n") ++ ("timestamp:") ++ toString c.timestamp ++ ("\n")

/-- The table part of the canonical serialization, for proof bookkeeping; it
depends only on the table data. -/
def tables_str (td : List (String × List Row)) : String :=
  str_concat ((List.insertionSort (fun a b => a ≤ b)
    (td.map Prod.fst)).map (table_block td))

/-- The identity digest used by the concrete counterexamples; any digest
factors through the canonical string, so a collision of canonical strings
defeats every digest. -/
def idDigest : String → String := fun s => s
/-- The base C4 commit before its hash is assigned. -/
def c4_pre : Commit := ⟨(""), ("P"), ("M\nmessage:X"), 1, [], []⟩
/-- The valid C4 commit: hash computed and assigned last. -/
def c4_a : Commit := { c4_pre with hash := compute_commit_hash idDigest c4_pre }

/-- The C4 mutation: parent hash and message are both changed (newline content
shifts from the message into the parent hash), the stored hash is left
untouched. -/
def c4_b : Commit := { c4_a with parent_hash := ("P\nmessage:M"), message := ("X") }

instance : IsAntisymm String (fun a b => a ≤ b) := ⟨fun _ _ => le_antisymm⟩

instance : IsTotal String (fun a b => a ≤ b) := ⟨fun a b => le_total a b⟩

instance : IsTrans String (fun a b => a ≤ b) := ⟨fun _ _ _ => le_trans⟩
/-- The C5 commit whose single table holds the rows `[1]` then `[2]`. -/
def c5_r1 : Commit :=
  ⟨(""), (""), (""), 0, [(("t"), [[Value.int 1], [Value.int 2]])], []⟩
/-- The C5 commit with those two rows swapped. -/
def c5_r2 : Commit :=
  ⟨(""), (""), (""), 0, [(("t"), [[Value.int 2], [Value.int 1]])], []⟩

/-- The C5 commit whose table holds the rows `[Integer 1]` then `[Text "1"]`,
two distinct rows that display identically. -/
def c5_d1 : Commit :=
  ⟨(""), (""), (""), 0, [(("t"), [[Value.int 1], [Value.text ("1")]])], []⟩
/-- The C5 commit with those two display-colliding rows swapped. -/
def c5_d2 : Commit :=
  ⟨(""), (""), (""), 0, [(("t"), [[Value.text ("1")], [Value.int 1]])], []⟩
/-- The first C5 witness commit: two tables inserted as `a` then `b`. -/
def c5_w1 : Commit :=
  ⟨(""), (""), (""), 0, [(("a"), [[Value.int 1]]), (("b"), [])], []⟩
/-- The second C5 witness commit: the same tables inserted as `b` then `a`. -/
def c5_w2 : Commit :=
  ⟨(""), (""), (""), 0, [(("b"), []), (("a"), [[Value.int 1]])], []⟩
/-- The two-column schema of the C8 witness. -/
def c8_s : Schema :=
  Schema.add_column (Schema.add_column Schema.empty c1_col1)
    ⟨("name"), DataType.VARCHAR, false, true⟩
/-- Every table cell of the given table data is non-Null. -/
def no_null_cells (td : List (String × List Row)) : Bool :=
  td.all (fun p => p.2.all (fun r => r.all (fun v => !(holds_monostate v))))

/-- If the schema declares a primary key, every row covers the key column and
the key cells are pairwise distinct. -/
def pk_ok (s : Schema) (rows : List Row) : Bool :=
  match pk_index s with
  | some k =>
    rows.all (fun r => decide (k < r.length)) &&
      decide ((rows.map (fun r => cell r k)).Nodup)
  | none => true

/-- The schema of the C9 counterexample: an integer primary key and a nullable
integer column. -/
def c9_schema : Schema :=
  Schema.add_column (Schema.add_column Schema.empty c1_col1)
    ⟨("x"), DataType.INTEGER, false, true⟩

/-- The C9 counterexample commit: its single table holds one row whose second
cell is Null. -/
def c9_A : Commit :=
  ⟨("h"), (""), ("m"), 0, [(("t"), [[Value.int 1, Value.null]])],
    [(("t"), c9_schema)]⟩
/-- The C9 witness commit: a primary-keyed table with two Null-free rows. -/
def c9_W : Commit :=
  ⟨("h"), (""), ("m"), 0, [(("t"), [[Value.int 1], [Value.int 2]])],
    [(("t"), Schema.add_column Schema.empty c1_col1)]⟩

/-- A C9 commit whose primary-keyed table holds one row whose key cell is
Null. -/
def c9_nullk : Commit :=
  ⟨("h"), (""), ("m"), 0, [(("t"), [[Value.null]])],
    [(("t"), Schema.add_column Schema.empty ⟨("id"), DataType.INTEGER, true, true⟩)]⟩

/-- A C9 commit whose table holds two different rows sharing the primary-key
value 1. -/
def c9_dup : Commit :=
  ⟨("h"), (""), ("m"), 0,
    [(("t"), [[Value.int 1, Value.int 10], [Value.int 1, Value.int 20]])],
    [(("t"), c9_schema)]⟩

/-! ## Theorems -/
/-- Two strings with the same character data are equal. -/
theorem string_data_inj {a b : String} (h : a.data = b.data) : a = b := by
  cases a
  cases b
  exact congrArg String.mk h
/-- Appending a nonempty string on the left yields a nonempty string. -/
theorem append_ne_empty_left (a b : String) (h : a ≠ ("")) : a ++ b ≠ ("") := by
  intro hab
  apply h
  have hd := congrArg String.data hab
  simp only [String.data_append] at hd
  rcases List.append_eq_nil.mp hd with ⟨h1, _⟩
  exact string_data_inj h1

/-- C1: `Schema.add_column` does not reject a duplicate column name: adding a
second column named `id` silently appends a duplicate entry to the ordered
column list, overwrites the name-to-index mapping to point at the new
position, and mutates the schema; there is no error result at all (the C++
method returns `void`), contradicting the claimed behaviour. -/
theorem c1_add_column_accepts_duplicate :
    (Schema.add_column c1_s0 c1_col2).columns = [c1_col1, c1_col2] ∧
    Schema.get_column_index (Schema.add_column c1_s0 c1_col2) ("id") = some 1 ∧
    Schema.add_column c1_s0 c1_col2 ≠ c1_s0 := by
  decide

/-- C10: every `Value` is caught by one of the five `holds_alternative` tests
of `value_to_string`, so the final fallback returning `???` is
unreachable, and each alternative is rendered as prescribed: Null as
`NULL`, Integer as decimal text, Float as fixed two-decimal text, Text as
its literal content, Boolean as `true` or `false`. -/
theorem c10_value_to_string_total : ∀ v : Value,
    (holds_monostate v || holds_int64 v || holds_double v || holds_string v ||
      holds_bool v) = true ∧
    value_to_string v = (match v with
      | .null => ("NULL")
      | .int i => toString i
      | .float q => fixed2 q
      | .text s => s
      | .bool b => if b then ("true") else ("false")) := by
  intro v
  cases v <;>
    simp [value_to_string, holds_monostate, holds_int64, holds_double,
      holds_string, holds_bool, get_int, get_float, get_text, get_bool]

/-- C7: `values_equal` is false whenever either operand is Null (including two
Nulls), false when the variant kinds differ, and otherwise coincides with
structural equality. -/
theorem c7_values_equal_spec :
    (∀ x, values_equal Value.null x = false) ∧
    (∀ x, values_equal x Value.null = false) ∧
    (∀ a b, variantIndex a ≠ variantIndex b → values_equal a b = false) ∧
    (∀ a b, a ≠ Value.null → b ≠ Value.null → variantIndex a = variantIndex b →
      (values_equal a b = true ↔ a = b)) := by
  refine ⟨?_, ?_, ?_, ?_⟩
  · intro x
    cases x <;> rfl
  · intro x
    cases x <;> rfl
  · intro a b h
    cases a <;> cases b <;>
      simp_all [values_equal, variantIndex, holds_monostate]
  · intro a b ha hb h
    cases a <;> cases b <;>
      simp_all [values_equal, variantIndex, holds_monostate]
/-- Witness for C7 at concrete inputs. -/
theorem c7_values_equal_witness :
    values_equal (Value.int 3) (Value.int 3) = true :=
  (c7_values_equal_spec.2.2.2 (Value.int 3) (Value.int 3) (by decide)
    (by decide) rfl).mpr rfl

/-- C3: the canonical serialization (and hence the commit hash) reads only
`parent_hash`, `message`, `timestamp` and `table_data`; two commits
agreeing on those four fields hash identically no matter how their
`table_schemas` differ. -/
theorem c3_hash_ignores_schemas :
    ∀ (digest : String → String) (c1 c2 : Commit),
      c1.parent_hash = c2.parent_hash → c1.message = c2.message →
      c1.timestamp = c2.timestamp → c1.table_data = c2.table_data →
      compute_commit_hash digest c1 = compute_commit_hash digest c2 := by
  intro digest c1 c2 h1 h2 h3 h4
  unfold compute_commit_hash canonicalize
  rw [h1, h2, h3, h4]

/-- Witness for C3: two concrete commits differing only in their schemas hash
identically. -/
theorem c3_witness :
    compute_commit_hash (fun s => s) c3_c1 = compute_commit_hash (fun s => s) c3_c2 ∧
    c3_c1.table_schemas ≠ c3_c2.table_schemas :=
  ⟨c3_hash_ignores_schemas (fun s => s) c3_c1 c3_c2 rfl rfl rfl rfl, by decide⟩

/-- The streamed row loop of `compute_commit_hash` appends one row line per
row to its accumulator. -/
theorem foldl_rows (rows : List Row) (s : String) :
    rows.foldl (fun acc2 row => acc2 ++ ("row:") ++ render_row row ++ ("\n")) s
      = s ++ str_concat (rows.map row_line) := by
  induction rows generalizing s with
  | nil => simp [str_concat]
  | cons r rs ih =>
    simp only [List.foldl_cons, List.map_cons, str_concat]
    rw [ih]
    simp [row_line, render_row, String.append_assoc]

/-- The streamed table loop of `compute_commit_hash` appends one table block
per name to its accumulator. -/
theorem foldl_tables (td : List (String × List Row)) (names : List String)
    (s : String) :
    names.foldl (fun acc name =>
      ((td.lookup name).getD []).foldl
        (fun acc2 row => acc2 ++ ("row:") ++ render_row row ++ ("\n"))
        (acc ++ ("table:") ++ name ++ ("\n"))) s
      = s ++ str_concat (names.map (table_block td)) := by
  induction names generalizing s with
  | nil => simp [str_concat]
  | cons n ns ih =>
    simp only [List.foldl_cons, List.map_cons, str_concat]
    rw [foldl_rows, ih]
    simp [table_block, String.append_assoc]
/-- The canonical serialization splits into its header and table parts. -/
theorem canonicalize_split (c : Commit) :
    canonicalize c = header_str c ++ tables_str c.table_data := by
  simp only [canonicalize, header_str, tables_str]
  rw [foldl_tables]

/-- C2: `compute_commit_hash` digests exactly the serialization the spec
prescribes: the parent, message, and timestamp lines, then for every table
name in ascending lexicographic order a table line followed by one row
line per stored row, cells rendered by `value_to_string` and joined with
commas. -/
theorem c2_hash_digests_spec_canonicalization :
    ∀ (digest : String → String) (c : Commit),
      compute_commit_hash digest c = digest (canonicalize_spec c) := by
  intro digest c
  have h : canonicalize c = canonicalize_spec c := by
    rw [canonicalize_split]
    simp [header_str, tables_str, canonicalize_spec, String.append_assoc]
  simp [compute_commit_hash, h]

/-- Two commits with equal timestamp, table data and canonical serialization
agree on the parent-then-message segment of the header. -/
theorem canonicalize_parent_message (c1 c2 : Commit)
    (ht : c1.timestamp = c2.timestamp) (hd : c1.table_data = c2.table_data)
    (h : canonicalize c1 = canonicalize c2) :
    c1.parent_hash.data ++ (("\n").data ++ (("message:").data ++ c1.message.data))
      = c2.parent_hash.data ++ (("\n").data ++ (("message:").data ++ c2.message.data)) := by
  rw [canonicalize_split, canonicalize_split, hd] at h
  have hdat := congrArg String.data h
  simp only [header_str, ht, String.data_append] at hdat
  have h1 := List.append_cancel_right hdat
  have h2 := List.append_cancel_right h1
  have h3 := List.append_cancel_right h2
  have h4 := List.append_cancel_right h3
  have h5 := List.append_cancel_right h4
  simp only [List.append_assoc] at h5
  exact List.append_cancel_left h5
/-- Changing the parent hash alone changes the canonical serialization. -/
theorem canonicalize_parent_inj (c1 c2 : Commit)
    (hm : c1.message = c2.message) (ht : c1.timestamp = c2.timestamp)
    (hd : c1.table_data = c2.table_data)
    (h : canonicalize c1 = canonicalize c2) :
    c1.parent_hash = c2.parent_hash := by
  have hx := canonicalize_parent_message c1 c2 ht hd h
  rw [hm] at hx
  simp only [← List.append_assoc] at hx
  have h1 := List.append_cancel_right hx
  have h2 := List.append_cancel_right h1
  have h3 := List.append_cancel_right h2
  exact string_data_inj h3
/-- Changing the message alone changes the canonical serialization. -/
theorem canonicalize_message_inj (c1 c2 : Commit)
    (hp : c1.parent_hash = c2.parent_hash) (ht : c1.timestamp = c2.timestamp)
    (hd : c1.table_data = c2.table_data)
    (h : canonicalize c1 = canonicalize c2) :
    c1.message = c2.message := by
  have hx := canonicalize_parent_message c1 c2 ht hd h
  rw [hp] at hx
  have h1 := List.append_cancel_left hx
  have h2 := List.append_cancel_left h1
  have h3 := List.append_cancel_left h2
  exact string_data_inj h3
/-- The canonical serialization never reads the stored hash field. -/
theorem canonicalize_hash_irrel (c : Commit) (h : String) :
    canonicalize { c with hash := h } = canonicalize c := rfl

/-- C4 counterexample: a commit mutated in `parent_hash` and `message` without
hash recomputation that `validate_commit` still accepts, because the two
distinct field assignments canonicalize to the same byte sequence,
refuting the claim that validation fails after any mutation of those
fields. -/
theorem c4_counterexample :
    validate_commit idDigest c4_a = true ∧
    c4_b.parent_hash ≠ c4_a.parent_hash ∧
    c4_b.message ≠ c4_a.message ∧
    c4_b.hash = c4_a.hash ∧
    validate_commit idDigest c4_b = true := by
  decide

/-- C4 amended: `validate_commit` is the hash comparison; it accepts a commit
built by `create_commit`; for an injective digest it rejects any mutation
that changes the canonical serialization while keeping the old hash (in
particular any lone change of the parent hash or of the message) but a
simultaneous mutation of several fields can leave the canonical
serialization, hence validation, unchanged. -/
theorem c4_validate_commit_amended :
    (∀ (digest : String → String) (c : Commit),
      validate_commit digest c = (compute_commit_hash digest c == c.hash)) ∧
    (∀ (digest : String → String) p m t td ts,
      validate_commit digest (create_commit digest p m t td ts) = true) ∧
    (∀ (digest : String → String) (c c2 : Commit), Function.Injective digest →
      validate_commit digest c = true → c2.hash = c.hash →
      canonicalize c2 ≠ canonicalize c → validate_commit digest c2 = false) ∧
    (∀ (digest : String → String) (c : Commit) (p2 : String),
      Function.Injective digest → validate_commit digest c = true →
      p2 ≠ c.parent_hash →
      validate_commit digest { c with parent_hash := p2 } = false) ∧
    (∀ (digest : String → String) (c : Commit) (m2 : String),
      Function.Injective digest → validate_commit digest c = true →
      m2 ≠ c.message →
      validate_commit digest { c with message := m2 } = false) := by
  have hbase : ∀ (digest : String → String) (c c2 : Commit),
      Function.Injective digest → validate_commit digest c = true →
      c2.hash = c.hash → canonicalize c2 ≠ canonicalize c →
      validate_commit digest c2 = false := by
    intro digest c c2 hinj hv hh hne
    have hcv : digest (canonicalize c) = c.hash := by
      simpa [validate_commit, compute_commit_hash] using hv
    rw [validate_commit, compute_commit_hash]
    rw [beq_eq_false_iff_ne]
    intro hcontra
    exact hne (hinj (by rw [hcontra, hh, hcv]))
  refine ⟨fun digest c => rfl, ?_, hbase, ?_, ?_⟩
  · intro digest p m t td ts
    show (compute_commit_hash digest _ == _) = true
    exact beq_self_eq_true _
  · intro digest c p2 hinj hv hne
    refine hbase digest c _ hinj hv rfl ?_
    intro hc
    exact hne (canonicalize_parent_inj { c with parent_hash := p2 } c rfl rfl rfl hc)
  · intro digest c m2 hinj hv hne
    refine hbase digest c _ hinj hv rfl ?_
    intro hc
    exact hne (canonicalize_message_inj { c with message := m2 } c rfl rfl rfl hc)

/-- Witness for the amended C4 at concrete inputs: a lone parent-hash change
is rejected. -/
theorem c4_witness :
    validate_commit idDigest { c4_a with parent_hash := ("Q") } = false :=
  c4_validate_commit_amended.2.2.2.1 idDigest c4_a ("Q")
    (fun a b hab => hab) rfl (by decide)

/-- Association-list lookup is invariant under permutation when the keys are
distinct. -/
theorem lookup_perm {β : Type} {l1 l2 : List (String × β)} (h : l1.Perm l2) :
    (l1.map Prod.fst).Nodup → ∀ k, l1.lookup k = l2.lookup k := by
  induction h with
  | nil =>
    intro _ k
    rfl
  | cons x h2 ih =>
    intro nd k
    obtain ⟨xk, xv⟩ := x
    simp only [List.map_cons, List.nodup_cons] at nd
    simp only [List.lookup]
    cases k == xk
    · exact ih nd.2 k
    · rfl
  | swap x y l =>
    intro nd k
    obtain ⟨xk, xv⟩ := x
    obtain ⟨yk, yv⟩ := y
    simp only [List.map_cons, List.nodup_cons, List.mem_cons] at nd
    have hxy : ¬(yk = xk) := fun he => nd.1 (Or.inl he)
    simp only [List.lookup]
    cases hky : k == yk <;> cases hkx : k == xk <;> simp_all
  | trans h1 h2 ih1 ih2 =>
    intro nd k
    exact (ih1 nd k).trans (ih2 ((h1.map Prod.fst).nodup_iff.mp nd) k)
/-- Sorting with the ascending string order is permutation-invariant. -/
theorem insertionSort_eq_of_perm {l1 l2 : List String} (h : l1.Perm l2) :
    List.insertionSort (fun a b => a ≤ b) l1
      = List.insertionSort (fun a b => a ≤ b) l2 := by
  exact List.eq_of_perm_of_sorted
    ((List.perm_insertionSort _ l1).trans
      (h.trans (List.perm_insertionSort _ l2).symm))
    (List.sorted_insertionSort (fun a b => a ≤ b) l1)
    (List.sorted_insertionSort (fun a b => a ≤ b) l2)

/-- The table section of the canonical serialization depends only on the table
data viewed as a finite map: it is invariant under permutation of the
association list when the table names are distinct. -/
theorem tables_str_perm {td1 td2 : List (String × List Row)}
    (h : td1.Perm td2) (nd : (td1.map Prod.fst).Nodup) :
    tables_str td1 = tables_str td2 := by
  unfold tables_str
  rw [insertionSort_eq_of_perm (h.map Prod.fst)]
  apply congrArg str_concat
  apply List.map_congr_left
  intro name _
  unfold table_block
  rw [lookup_perm h nd name]

/-- String append cancels on the left. -/
theorem str_append_cancel_left {a b c : String} (h : a ++ b = a ++ c) : b = c := by
  have hd := congrArg String.data h
  simp only [String.data_append] at hd
  exact string_data_inj (List.append_cancel_left hd)

/-- String append cancels on the right. -/
theorem str_append_cancel_right {a b c : String} (h : a ++ c = b ++ c) : a = b := by
  have hd := congrArg String.data h
  simp only [String.data_append] at hd
  exact string_data_inj (List.append_cancel_right hd)

/-- A string sandwiched between two fixed strings is determined by the
whole. -/
theorem str_sandwich_iff {s t x y : String} : s ++ x ++ t = s ++ y ++ t ↔ x = y := by
  constructor
  · intro h
    exact str_append_cancel_left (str_append_cancel_right h)
  · intro h
    rw [h]

/-- Concatenation distributes over list append. -/
theorem str_concat_append (a b : List String) :
    str_concat (a ++ b) = str_concat a ++ str_concat b := by
  induction a with
  | nil => simp [str_concat]
  | cons x xs ih => simp [str_concat, ih, String.append_assoc]

/-- Looking a key up past a middle entry with a different key ignores the
payload of that entry. -/
theorem lookup_middle_ne {β : Type} (pre post : List (String × β)) (name : String)
    (b1 b2 : β) (n : String) (hn : n ≠ name) :
    (pre ++ (name, b1) :: post).lookup n = (pre ++ (name, b2) :: post).lookup n := by
  induction pre with
  | nil =>
    simp only [List.nil_append, List.lookup]
    have hb : (n == name) = false := by simpa using hn
    rw [hb]
  | cons p rest ih =>
    obtain ⟨pk, pv⟩ := p
    simp only [List.cons_append, List.lookup]
    cases n == pk
    · exact ih
    · rfl

/-- Looking the middle key up finds its payload when the prefix misses the
key. -/
theorem lookup_middle_self {β : Type} (pre post : List (String × β)) (name : String)
    (b : β) (hpre : name ∉ pre.map Prod.fst) :
    (pre ++ (name, b) :: post).lookup name = some b := by
  induction pre with
  | nil => simp [List.lookup]
  | cons p rest ih =>
    obtain ⟨pk, pv⟩ := p
    simp only [List.map_cons, List.mem_cons] at hpre
    push_neg at hpre
    simp only [List.cons_append, List.lookup]
    have hb : (name == pk) = false := by simpa using hpre.1
    rw [hb]
    exact ih hpre.2

/-- Replacing the stored row list of one table (its name kept distinct from
the other table names) changes the canonical serialization exactly when it
changes the concatenated row-line rendering of that table. -/
theorem canonicalize_rows_iff (c1 c2 : Commit)
    (pre post : List (String × List Row)) (name : String)
    (rows1 rows2 : List Row)
    (h1 : c1.parent_hash = c2.parent_hash) (h2 : c1.message = c2.message)
    (h3 : c1.timestamp = c2.timestamp)
    (htd1 : c1.table_data = pre ++ (name, rows1) :: post)
    (htd2 : c2.table_data = pre ++ (name, rows2) :: post)
    (hnd : ((pre ++ (name, rows1) :: post).map Prod.fst).Nodup) :
    (canonicalize c1 = canonicalize c2 ↔
      str_concat (rows1.map row_line) = str_concat (rows2.map row_line)) := by
  have hkeys1 : (pre ++ (name, rows1) :: post).map Prod.fst
      = pre.map Prod.fst ++ name :: post.map Prod.fst := by simp
  have hkeys2 : (pre ++ (name, rows2) :: post).map Prod.fst
      = pre.map Prod.fst ++ name :: post.map Prod.fst := by simp
  rw [hkeys1] at hnd
  have hnp : name ∉ pre.map Prod.fst := by
    rcases List.nodup_append.mp hnd with ⟨_, _, hdisj0⟩
    exact fun hm => hdisj0 hm (by simp)
  have hl1 : (pre ++ (name, rows1) :: post).lookup name = some rows1 :=
    lookup_middle_self pre post name rows1 hnp
  have hl2 : (pre ++ (name, rows2) :: post).lookup name = some rows2 :=
    lookup_middle_self pre post name rows2 hnp
  rw [canonicalize_split, canonicalize_split, htd1, htd2]
  have hh : header_str c1 = header_str c2 := by
    simp [header_str, h1, h2, h3]
  rw [hh]
  have step1 : ∀ x y : String,
      (header_str c2 ++ x = header_str c2 ++ y ↔ x = y) :=
    fun x y => ⟨str_append_cancel_left, fun h => by rw [h]⟩
  rw [step1]
  unfold tables_str
  rw [hkeys1, hkeys2]
  have hS : (List.insertionSort (fun a b => a ≤ b)
      (pre.map Prod.fst ++ name :: post.map Prod.fst)).Nodup :=
    ((List.perm_insertionSort (fun a b => a ≤ b)
      (pre.map Prod.fst ++ name :: post.map Prod.fst)).nodup_iff).mpr hnd
  have hmem : name ∈ List.insertionSort (fun a b => a ≤ b)
      (pre.map Prod.fst ++ name :: post.map Prod.fst) := by
    rw [List.mem_insertionSort]
    simp
  obtain ⟨u, w, huw⟩ := List.append_of_mem hmem
  rw [huw] at hS
  rw [huw]
  rcases List.nodup_append.mp hS with ⟨_, hnw, hdisj⟩
  have hnu : name ∉ u := fun hm => hdisj hm (by simp)
  have hnmw : name ∉ w := (List.nodup_cons.mp hnw).1
  simp only [List.map_append, List.map_cons, str_concat_append, str_concat]
  have hU : u.map (table_block (pre ++ (name, rows1) :: post))
      = u.map (table_block (pre ++ (name, rows2) :: post)) := by
    apply List.map_congr_left
    intro n hn
    have hne : n ≠ name := fun he => hnu (he ▸ hn)
    unfold table_block
    rw [lookup_middle_ne pre post name rows1 rows2 n hne]
  have hW : w.map (table_block (pre ++ (name, rows1) :: post))
      = w.map (table_block (pre ++ (name, rows2) :: post)) := by
    apply List.map_congr_left
    intro n hn
    have hne : n ≠ name := fun he => hnmw (he ▸ hn)
    unfold table_block
    rw [lookup_middle_ne pre post name rows1 rows2 n hne]
  rw [hU, hW]
  rw [← String.append_assoc, ← String.append_assoc]
  rw [str_sandwich_iff]
  unfold table_block
  rw [hl1, hl2]
  simp only [Option.getD_some]
  constructor
  · intro h
    exact str_append_cancel_left h
  · intro h
    rw [h]

/-- C5 counterexample: permuting the rows of a table does not always change
the hash; swapping two distinct rows whose cells display identically
(`Integer 1` and `Text "1"`) leaves the canonical serialization, and hence
the hash under every digest, unchanged. -/
theorem c5_counterexample :
    c5_d1.table_data ≠ c5_d2.table_data ∧
    ((c5_d1.table_data.lookup ("t")).getD []).Perm
      ((c5_d2.table_data.lookup ("t")).getD []) ∧
    canonicalize c5_d1 = canonicalize c5_d2 ∧
    compute_commit_hash idDigest c5_d1 = compute_commit_hash idDigest c5_d2 := by
  decide

/-- C5 amended: `compute_commit_hash` is deterministic; it is invariant under
permutation of the table-insertion order (table names, distinct, are sorted
before hashing); and row order within a table is significant but not
universally: replacing the stored row list of one table (in particular
permuting it) changes the hash under an injective digest exactly when it
changes the concatenated row-line serialization of that table — so swapping
the rows `[1]`, `[2]` changes the hash, while a permutation that leaves the
concatenated row lines unchanged, such as swapping the identically
displayed rows `[Integer 1]` and `[Text "1"]`, leaves it unchanged. -/
theorem c5_hash_deterministic_amended :
    (∀ (digest : String → String) (c : Commit),
      compute_commit_hash digest c = compute_commit_hash digest c) ∧
    (∀ (digest : String → String) (c1 c2 : Commit),
      c1.parent_hash = c2.parent_hash → c1.message = c2.message →
      c1.timestamp = c2.timestamp → c1.table_data.Perm c2.table_data →
      (c1.table_data.map Prod.fst).Nodup →
      compute_commit_hash digest c1 = compute_commit_hash digest c2) ∧
    (∀ (digest : String → String), Function.Injective digest →
      ∀ (c1 c2 : Commit) (pre post : List (String × List Row)) (name : String)
        (rows1 rows2 : List Row),
      c1.parent_hash = c2.parent_hash → c1.message = c2.message →
      c1.timestamp = c2.timestamp →
      c1.table_data = pre ++ (name, rows1) :: post →
      c2.table_data = pre ++ (name, rows2) :: post →
      ((pre ++ (name, rows1) :: post).map Prod.fst).Nodup →
      (compute_commit_hash digest c1 = compute_commit_hash digest c2 ↔
        str_concat (rows1.map row_line) = str_concat (rows2.map row_line))) ∧
    (∀ (digest : String → String), Function.Injective digest →
      compute_commit_hash digest c5_r1 ≠ compute_commit_hash digest c5_r2) ∧
    ((c5_r1.table_data.lookup ("t")).getD []).Perm
      ((c5_r2.table_data.lookup ("t")).getD []) := by
  refine ⟨fun digest c => rfl, ?_, ?_, ?_, by decide⟩
  · intro digest c1 c2 h1 h2 h3 h4 nd
    unfold compute_commit_hash
    rw [canonicalize_split, canonicalize_split]
    rw [tables_str_perm h4 nd]
    have hh : header_str c1 = header_str c2 := by
      simp [header_str, h1, h2, h3]
    rw [hh]
  · intro digest hinj c1 c2 pre post name rows1 rows2 h1 h2 h3 htd1 htd2 hnd
    have hiff := canonicalize_rows_iff c1 c2 pre post name rows1 rows2
      h1 h2 h3 htd1 htd2 hnd
    constructor
    · intro h
      exact hiff.mp (hinj h)
    · intro h
      exact congrArg digest (hiff.mpr h)
  · intro digest hinj hcontra
    have h := hinj hcontra
    exact absurd h (by decide)

/-- Witness for the amended C5 at concrete inputs: table-insertion order does
not affect the hash. -/
theorem c5_witness :
    compute_commit_hash idDigest c5_w1 = compute_commit_hash idDigest c5_w2 :=
  c5_hash_deterministic_amended.2.1 idDigest c5_w1 c5_w2 rfl rfl rfl
    (by decide) (by decide)
/-- Irreflexivity of `value_less_than`. -/
theorem vlt_irrefl (a : Value) : value_less_than a a = false := by
  cases a <;>
    simp [value_less_than, holds_monostate, holds_int64, holds_double,
      holds_string, holds_bool, get_int, get_float, get_text, get_bool,
      variantIndex]
/-- Transitivity of `value_less_than`. -/
theorem vlt_trans {a b c : Value} (hab : value_less_than a b = true)
    (hbc : value_less_than b c = true) : value_less_than a c = true := by
  cases a <;> cases b <;> cases c <;>
    simp_all [value_less_than, holds_monostate, holds_int64, holds_double,
      holds_string, holds_bool, get_int, get_float, get_text, get_bool,
      variantIndex]
  case int.int.int => omega
  case int.int.float i j q => exact lt_trans (by exact_mod_cast hab) hbc
  case int.float.int i q j => exact_mod_cast lt_trans hab hbc
  case int.float.float => exact lt_trans hab hbc
  case float.int.int q i j => exact lt_trans hab (by exact_mod_cast hbc)
  case float.int.float => exact lt_trans hab hbc
  case float.float.int => exact lt_trans hab hbc
  case float.float.float => exact lt_trans hab hbc
  case text.text.text => exact lt_trans hab hbc
/-- Asymmetry of `value_less_than`. -/
theorem vlt_asymm {a b : Value} (hab : value_less_than a b = true) :
    value_less_than b a = false := by
  by_contra hcontra
  have hba : value_less_than b a = true := by
    cases hx : value_less_than b a
    · exact absurd hx hcontra
    · rfl
  have := vlt_trans hab hba
  rw [vlt_irrefl a] at this
  exact Bool.false_ne_true this

/-- C6: `value_less_than` sorts Null after every non-Null value, compares
Integer/Integer and Float/Float pairs numerically, widens the Integer of a
mixed Integer/Float pair to a rational before comparing, compares Text
lexicographically and Boolean as false-before-true, falls back to the
stable variant-index rank for every other cross-kind pair, and is a strict
weak ordering: irreflexive, asymmetric and transitive (hence in particular
over any finite set of values). -/
theorem c6_value_less_than_spec :
    (∀ v, v ≠ Value.null → value_less_than v Value.null = true ∧
      value_less_than Value.null v = false) ∧
    (∀ i j : Int, value_less_than (Value.int i) (Value.int j) = decide (i < j)) ∧
    (∀ p q : ℚ, value_less_than (Value.float p) (Value.float q) = decide (p < q)) ∧
    (∀ (i : Int) (q : ℚ),
      value_less_than (Value.int i) (Value.float q) = decide ((i : ℚ) < q) ∧
      value_less_than (Value.float q) (Value.int i) = decide (q < (i : ℚ))) ∧
    (∀ s t : String, value_less_than (Value.text s) (Value.text t) = decide (s < t)) ∧
    (∀ x y : Bool, value_less_than (Value.bool x) (Value.bool y) = (!x && y)) ∧
    (∀ a b, a ≠ Value.null → b ≠ Value.null →
      variantIndex a ≠ variantIndex b →
      ((holds_int64 a || holds_double a) && (holds_int64 b || holds_double b)) = false →
      value_less_than a b = decide (variantIndex a < variantIndex b)) ∧
    (∀ a, value_less_than a a = false) ∧
    (∀ a b, value_less_than a b = true → value_less_than b a = false) ∧
    (∀ a b c, value_less_than a b = true → value_less_than b c = true →
      value_less_than a c = true) := by
  refine ⟨?_, ?_, ?_, ?_, ?_, ?_, ?_, vlt_irrefl, fun a b => vlt_asymm,
    fun a b c => vlt_trans⟩
  · intro v hv
    cases v <;> simp_all [value_less_than, holds_monostate]
  · intro i j
    simp [value_less_than, holds_monostate, holds_int64, get_int]
  · intro p q
    simp [value_less_than, holds_monostate, holds_int64, holds_double, get_float]
  · intro i q
    constructor <;>
      simp [value_less_than, holds_monostate, holds_int64, holds_double,
        get_int, get_float]
  · intro s t
    simp [value_less_than, holds_monostate, holds_int64, holds_double,
      holds_string, get_text]
  · intro x y
    simp [value_less_than, holds_monostate, holds_int64, holds_double,
      holds_string, holds_bool, get_bool]
  · intro a b ha hb hidx hnum
    cases a <;> cases b <;>
      simp_all [value_less_than, holds_monostate, holds_int64, holds_double,
        holds_string, holds_bool, variantIndex]

/-- Witness for C6 at concrete inputs: asymmetry applied to the Boolean pair
false, true. -/
theorem c6_witness :
    value_less_than (Value.bool true) (Value.bool false) = false :=
  c6_value_less_than_spec.2.2.2.2.2.2.2.2.1 (Value.bool false)
    (Value.bool true) (by decide)
/-- The column-count error message is never the empty string. -/
theorem count_error_ne_empty (n m : Nat) :
    ("Expected ") ++ toString n ++ (" columns, got ") ++ toString m ≠ ("") :=
  append_ne_empty_left _ _
    (append_ne_empty_left _ _ (append_ne_empty_left _ _ (by decide)))

/-- The function `firstError` returns the empty string exactly when every
paired cell validates. -/
theorem firstError_eq_empty_iff (cs : List ColumnDef) (vs : List Value) :
    firstError cs vs = ("") ↔
      ∀ p ∈ cs.zip vs, ColumnDef.validate p.1 p.2 = ("") := by
  induction cs generalizing vs with
  | nil => simp [firstError]
  | cons c cs ih =>
    cases vs with
    | nil => simp [firstError]
    | cons v vs =>
      by_cases h : ColumnDef.validate c v = ("")
      · simp [firstError, h, ih]
      · simp only [firstError, if_pos h]
        constructor
        · intro hcontra
          exact absurd hcontra h
        · intro hall
          exact absurd (hall (c, v) (by simp)) h

/-- The function `firstError` is fail-fast: if the cells before position `i`
validate and the cell at `i` does not, the result is exactly the error at
`i`. -/
theorem firstError_first (cs : List ColumnDef) (vs : List Value) (i : Nat)
    (hi : i < (cs.zip vs).length)
    (hprev : ∀ j (hj : j < (cs.zip vs).length), j < i →
      ColumnDef.validate ((cs.zip vs).get ⟨j, hj⟩).1 ((cs.zip vs).get ⟨j, hj⟩).2 = (""))
    (hcur : ColumnDef.validate ((cs.zip vs).get ⟨i, hi⟩).1
      ((cs.zip vs).get ⟨i, hi⟩).2 ≠ ("")) :
    firstError cs vs
      = ColumnDef.validate ((cs.zip vs).get ⟨i, hi⟩).1 ((cs.zip vs).get ⟨i, hi⟩).2 := by
  induction cs generalizing vs i with
  | nil => simp at hi
  | cons c cs ih =>
    cases vs with
    | nil => simp at hi
    | cons v vs =>
      cases i with
      | zero =>
        simp only [List.zip_cons_cons, List.get] at hcur ⊢
        simp [firstError, if_pos hcur]
      | succ i =>
        have h0 : ColumnDef.validate c v = ("") := by
          have := hprev 0 (by simp) (Nat.succ_pos i)
          simpa [List.zip_cons_cons, List.get] using this
        simp only [List.zip_cons_cons, List.get] at hcur ⊢
        rw [firstError, if_neg (by simpa using h0)]
        refine ih vs i (by simpa [List.zip_cons_cons] using hi) ?_ hcur
        intro j hj hji
        have := hprev (j + 1) (by simpa [List.zip_cons_cons] using Nat.succ_lt_succ hj)
          (Nat.succ_lt_succ hji)
        simpa [List.zip_cons_cons, List.get] using this

/-- C8: `validate_row` returns the empty string exactly when the row length
matches the column count and every cell validates against its column
(Float columns also accept Integer values; Null is accepted only when the
column is nullable); on failure it returns the column-count message, or
else the error of the first failing cell scanning left to right. -/
theorem c8_validate_row_spec :
    ∀ (s : Schema) (r : Row),
    (Schema.validate_row s r = ("") ↔ (r.length = s.columns.length ∧
      ∀ p ∈ s.columns.zip r, ColumnDef.validate p.1 p.2 = (""))) ∧
    (r.length ≠ s.columns.length → Schema.validate_row s r =
      ("Expected ") ++ toString s.columns.length ++ (" columns, got ") ++
        toString r.length) ∧
    (∀ i (hi : i < (s.columns.zip r).length),
      (∀ j (hj : j < (s.columns.zip r).length), j < i →
        ColumnDef.validate ((s.columns.zip r).get ⟨j, hj⟩).1
          ((s.columns.zip r).get ⟨j, hj⟩).2 = ("")) →
      ColumnDef.validate ((s.columns.zip r).get ⟨i, hi⟩).1
        ((s.columns.zip r).get ⟨i, hi⟩).2 ≠ ("") →
      r.length = s.columns.length →
      Schema.validate_row s r = ColumnDef.validate
        ((s.columns.zip r).get ⟨i, hi⟩).1 ((s.columns.zip r).get ⟨i, hi⟩).2) ∧
    (∀ (col : ColumnDef) (i : Int), col.type = DataType.FLOAT →
      ColumnDef.validate col (Value.int i) = ("")) ∧
    (∀ col : ColumnDef,
      (ColumnDef.validate col Value.null = ("")) ↔ col.is_nullable = true) := by
  intro s r
  refine ⟨?_, ?_, ?_, ?_, ?_⟩
  · by_cases hlen : r.length = s.columns.length
    · simp [Schema.validate_row, hlen, firstError_eq_empty_iff]
    · simp only [Schema.validate_row, if_pos hlen]
      constructor
      · intro h
        exact absurd h (count_error_ne_empty _ _)
      · intro h
        exact absurd h.1 hlen
  · intro h
    simp [Schema.validate_row, h]
  · intro i hi hprev hcur hlen
    rw [Schema.validate_row, if_neg (by simp [hlen])]
    exact firstError_first _ _ i hi hprev hcur
  · intro col i h
    simp [ColumnDef.validate, is_null, holds_monostate, h, holds_int64,
      holds_double]
  · intro col
    by_cases h : col.is_nullable
    · simp [ColumnDef.validate, is_null, holds_monostate, h]
    · simp only [ColumnDef.validate, is_null, holds_monostate, h,
        Bool.not_false, if_pos, if_true]
      constructor
      · intro hc
        exact absurd hc (append_ne_empty_left _ _
          (append_ne_empty_left _ _ (append_ne_empty_left _ _ (by decide))))
      · intro hc
        exact absurd hc (by simp [h])
/-- Witness for C8 at concrete inputs: a matching row validates. -/
theorem c8_witness :
    Schema.validate_row c8_s [Value.int 1, Value.text ("x")] = ("") :=
  (c8_validate_row_spec c8_s [Value.int 1, Value.text ("x")]).1.mpr
    ⟨by decide, by decide⟩
/-- A value failing the monostate test is not Null. -/
theorem ne_null_of_not_monostate {v : Value} (h : (!(holds_monostate v)) = true) :
    v ≠ Value.null := by
  cases v <;> simp_all [holds_monostate]
/-- Reflexivity of `values_equal` on non-Null values. -/
theorem values_equal_refl {x : Value} (hx : x ≠ Value.null) :
    values_equal x x = true := by
  cases x <;> simp_all [values_equal, holds_monostate]
/-- On non-Null operands, `values_equal` decides equality. -/
theorem values_equal_true_iff {x y : Value} (hx : x ≠ Value.null)
    (hy : y ≠ Value.null) : values_equal x y = true ↔ x = y := by
  cases x <;> cases y <;>
    simp_all [values_equal, variantIndex, holds_monostate]
/-- A covered cell is a member of its row. -/
theorem cell_mem (r : Row) (k : Nat) (h : k < r.length) : cell r k ∈ r := by
  induction r generalizing k with
  | nil => simp at h
  | cons v vs ih =>
    cases k with
    | zero => simp [cell]
    | succ k =>
      have := ih k (by simpa using h)
      simp only [cell] at this ⊢
      exact List.mem_cons_of_mem _ this
/-- Members of a list zipped with itself are diagonal pairs. -/
theorem mem_zip_self {α : Type} {l : List α} {p : α × α} (hp : p ∈ l.zip l) :
    p.1 = p.2 ∧ p.1 ∈ l := by
  induction l with
  | nil => simp at hp
  | cons x xs ih =>
    rcases List.mem_cons.mp (by simpa [List.zip_cons_cons] using hp) with heq | hmem
    · subst heq
      exact ⟨rfl, by simp⟩
    · obtain ⟨h1, h2⟩ := ih hmem
      exact ⟨h1, List.mem_cons_of_mem _ h2⟩
/-- A row of non-Null cells matches itself. -/
theorem rows_match_self {r : Row} (h : ∀ v ∈ r, v ≠ Value.null) :
    rows_match r r = true := by
  simp only [rows_match, beq_self_eq_true, Bool.true_and, List.all_eq_true]
  intro p hp
  obtain ⟨h1, h2⟩ := mem_zip_self hp
  rw [← h1] at *
  exact values_equal_refl (h p.1 h2)
/-- A successful association-list lookup comes from a member entry. -/
theorem lookup_mem {β : Type} {l : List (String × β)} {k : String} {b : β}
    (h : l.lookup k = some b) : (k, b) ∈ l := by
  induction l with
  | nil => simp [List.lookup] at h
  | cons p rest ih =>
    obtain ⟨pk, pv⟩ := p
    simp only [List.lookup] at h
    cases hk : k == pk
    · rw [hk] at h
      exact List.mem_cons_of_mem _ (ih h)
    · rw [hk] at h
      have hkk : k = pk := by simpa using hk
      have hbv : pv = b := by simpa using h
      subst hkk
      subst hbv
      simp

/-- Under distinct non-Null keys the primary-key scan of a row over its own
list finds the row itself. -/
theorem find_pk_self (k : Nat) (rows : List Row)
    (hnn : ∀ r ∈ rows, ∀ v ∈ r, v ≠ Value.null)
    (hlen : ∀ r ∈ rows, k < r.length)
    (hnd : (rows.map (fun r => cell r k)).Nodup) :
    ∀ fr ∈ rows,
      rows.find? (fun tr => values_equal (cell fr k) (cell tr k)) = some fr := by
  induction rows with
  | nil => simp
  | cons r0 rest ih =>
    intro fr hfr
    simp only [List.map_cons, List.nodup_cons] at hnd
    rcases List.mem_cons.mp hfr with rfl | hfr2
    · have hcell : cell fr k ∈ fr := cell_mem _ _ (hlen fr (by simp))
      have hre : values_equal (cell fr k) (cell fr k) = true :=
        values_equal_refl (hnn fr (by simp) _ hcell)
      simp [List.find?, hre]
    · have hfrn : ∀ v ∈ fr, v ≠ Value.null :=
        hnn fr (List.mem_cons_of_mem _ hfr2)
      have hfc : cell fr k ∈ fr := cell_mem _ _ (hlen fr (List.mem_cons_of_mem _ hfr2))
      have hr0c : cell r0 k ∈ r0 := cell_mem _ _ (hlen r0 (by simp))
      have hne : cell fr k ≠ cell r0 k := by
        intro he
        apply hnd.1
        rw [← he]
        exact List.mem_map_of_mem _ hfr2
      have hpr : values_equal (cell fr k) (cell r0 k) = false := by
        cases hx : values_equal (cell fr k) (cell r0 k)
        · rfl
        · exact absurd ((values_equal_true_iff (hfrn _ hfc)
            (hnn r0 (by simp) _ hr0c)).mp hx) hne
      rw [List.find?]
      rw [hpr]
      exact ih (fun r hr => hnn r (List.mem_cons_of_mem _ hr))
        (fun r hr => hlen r (List.mem_cons_of_mem _ hr)) hnd.2 fr hfr2

/-- Under the C9 hypotheses the primary-key diff of a table against itself is
empty. -/
theorem row_diffs_pk_self (k : Nat) (rows : List Row)
    (hnn : ∀ r ∈ rows, ∀ v ∈ r, v ≠ Value.null)
    (hlen : ∀ r ∈ rows, k < r.length)
    (hnd : (rows.map (fun r => cell r k)).Nodup) :
    row_diffs_pk k rows rows = [] := by
  unfold row_diffs_pk
  rw [List.append_eq_nil]
  constructor
  · rw [List.filterMap_eq_nil_iff]
    intro fr hfr
    rw [find_pk_self k rows hnn hlen hnd fr hfr]
    simp [rows_match_self (hnn fr hfr)]
  · rw [List.filterMap_eq_nil_iff]
    intro tr htr
    have hmem : cell tr k ∈ tr := cell_mem _ _ (hlen tr htr)
    have hany : rows.any (fun fr => values_equal (cell fr k) (cell tr k)) = true :=
      List.any_eq_true.mpr ⟨tr, htr, values_equal_refl (hnn tr htr _ hmem)⟩
    simp [hany]
/-- Scanning a list against itself never finds an excess occurrence. -/
theorem extra_rows_self (rows : List Row) :
    ∀ seen src, seen ++ src = rows → extra_rows rows seen src = [] := by
  intro seen src
  induction src generalizing seen with
  | nil =>
    intro _
    rfl
  | cons r rest ih =>
    intro heq
    have hcount : seen.count r + 1 ≤ rows.count r := by
      rw [← heq]
      simp [List.count_append, List.count_cons_self]
    unfold extra_rows
    rw [if_neg (by omega)]
    simp only [List.nil_append]
    exact ih (seen ++ [r]) (by simpa using heq)
/-- Spec-level schema equality is reflexive. -/
theorem schemas_equal_refl (s : Schema) : schemas_equal s s = true := by
  simp only [schemas_equal, beq_self_eq_true, Bool.true_and, List.all_eq_true]
  intro p hp
  obtain ⟨h1, _⟩ := mem_zip_self hp
  rw [← h1]
  simp
/-- Filtering a list by non-membership in itself leaves nothing. -/
theorem filter_not_contains_self (names : List String) :
    names.filter (fun n => !(names.contains n)) = [] := by
  rw [List.filter_eq_nil_iff]
  intro a ha
  simp [ha]

/-- Under the C9 hypotheses the row-diff part of a table diffed against
itself is empty. -/
theorem c9_table_diff_rows (A : Commit) (name : String)
    (hnn : no_null_cells A.table_data = true)
    (hpk : ∀ p ∈ A.table_data,
      pk_ok ((A.table_schemas.lookup p.1).getD Schema.empty) p.2 = true) :
    (table_diff A A name).row_diffs = [] := by
  simp only [table_diff]
  cases hl : A.table_data.lookup name with
  | none =>
    cases pk_index ((A.table_schemas.lookup name).getD Schema.empty) <;>
      simp [hl, row_diffs_pk, row_diffs_multiset, extra_rows]
  | some rows =>
    have hmem := lookup_mem hl
    have hnnr : ∀ r ∈ rows, ∀ v ∈ r, v ≠ Value.null := by
      have h1 : ∀ (a : String) (b : List Row), (a, b) ∈ A.table_data →
          ∀ r ∈ b, ∀ v ∈ r, holds_monostate v = false := by
        simpa [no_null_cells] using hnn
      intro r hr v hv
      have h2 := h1 name rows hmem r hr v hv
      cases v <;> simp_all [holds_monostate]
    have hpkt := hpk (name, rows) hmem
    cases hpkI : pk_index ((A.table_schemas.lookup name).getD Schema.empty) with
    | none =>
      simp [hl, hpkI, row_diffs_multiset, extra_rows_self rows [] rows rfl]
    | some k =>
      rw [pk_ok, hpkI] at hpkt
      simp only [Bool.and_eq_true, List.all_eq_true, decide_eq_true_eq] at hpkt
      obtain ⟨hlen, hnd⟩ := hpkt
      simp [hl, hpkI,
        row_diffs_pk_self k rows hnnr (fun r hr => hlen r hr) hnd]

/-- C9 amended: `diff(A, A)` yields — unconditionally — empty `tables_added`,
empty `tables_dropped`, and `schema_changed == false` for every TableDiff;
every TableDiff additionally has zero row diffs provided no stored cell is
Null and any declared primary-key column is covered by every row with
pairwise-distinct key values. Without those provisions the rule of the spec
that Null never equals Null breaks the empty self-diff, in each way shown
concretely: a matched pair with Null cells is reported MODIFIED (the
counterexample), a row whose primary key is Null matches nothing and is
reported DELETED plus ADDED, and a duplicated primary-key value pairs two
different rows as MODIFIED. -/
theorem c9_diff_self_amended (A : Commit) :
    (diff A A).tables_added = [] ∧ (diff A A).tables_dropped = [] ∧
    (∀ td ∈ (diff A A).table_diffs, td.schema_changed = false) ∧
    (no_null_cells A.table_data = true →
      (∀ p ∈ A.table_data,
        pk_ok ((A.table_schemas.lookup p.1).getD Schema.empty) p.2 = true) →
      ∀ td ∈ (diff A A).table_diffs, td.row_diffs = []) ∧
    (diff c9_nullk c9_nullk).table_diffs =
      [⟨("t"), [⟨RowDiffType.DELETED, [Value.null], []⟩,
        ⟨RowDiffType.ADDED, [], [Value.null]⟩], false⟩] ∧
    (diff c9_dup c9_dup).table_diffs =
      [⟨("t"), [⟨RowDiffType.MODIFIED, [Value.int 1, Value.int 20],
        [Value.int 1, Value.int 10]⟩], false⟩] := by
  refine ⟨?_, ?_, ?_, ?_, by decide, by decide⟩
  · simp only [diff]
    exact filter_not_contains_self _
  · simp only [diff]
    exact filter_not_contains_self _
  · intro td htd
    simp only [diff, List.mem_map] at htd
    obtain ⟨name, _, rfl⟩ := htd
    simp [table_diff, schemas_equal_refl]
  · intro hnn hpk td htd
    simp only [diff, List.mem_map] at htd
    obtain ⟨name, _, rfl⟩ := htd
    exact c9_table_diff_rows A name hnn hpk

/-- C9 counterexample: diffing a commit against itself is not always empty;
the row `(1, NULL)` matches itself by primary key, but its Null cell is
unequal to itself under `values_equal`, so the self-diff reports the row
as MODIFIED. -/
theorem c9_counterexample :
    (diff c9_A c9_A).table_diffs =
      [⟨("t"), [⟨RowDiffType.MODIFIED, [Value.int 1, Value.null],
        [Value.int 1, Value.null]⟩], false⟩] ∧
    ((diff c9_A c9_A).table_diffs.all (fun td => td.row_diffs.isEmpty)) = false := by
  decide

/-- Witness for the amended C9 at a concrete commit, discharging the
Null-freedom and primary-key hypotheses of the row-diff clause. -/
theorem c9_witness :
    (diff c9_W c9_W).table_diffs.all (fun td => td.row_diffs.isEmpty) = true := by
  have h := (c9_diff_self_amended c9_W).2.2.2.1 (by decide) (by decide)
  rw [List.all_eq_true]
  intro td htd
  rw [h td htd]
  rfl

end Repono
